import Mathlib

/-!
# Verification of the jingo render-context and caching core

Shallow embedding of `jingo/__init__.py` (a Django→Jinja2 adapter):

* `MD5` — the MD5 digest (RFC 1321), the hash applied by
  `Register.cached_inclusion_tag` via `hashlib.md5(...).hexdigest()`;
* `Dict` — Python `dict` semantics as insertion-ordered association lists;
* `cacheKey` / `cachedWrapper` — `Register.cached_inclusion_tag`;
* `getContext` — `render_to_string.get_context` (value-level view);
* `getContextStore` — the same code with object identity and in-place
  mutation made explicit through a store of dictionaries;
* `flattenContext` — `Template.render`'s flattening of a Django `Context`;
* `loadHelpers` — `load_helpers` and the `_helpers_loaded` one-shot flag.
-/

namespace MD5

/-- Addition modulo 2^32 (`+` on 32-bit words). -/
def add32 (a b : Nat) : Nat := (a + b) % 4294967296

/-- Bitwise complement on 32-bit words. -/
def not32 (x : Nat) : Nat := 4294967295 - x % 4294967296

/-- Left rotation of a 32-bit word by `n` bits. -/
def rotl32 (x n : Nat) : Nat :=
  ((x <<< n) ||| (x >>> (32 - n))) % 4294967296

/-- Round function F (rounds 0–15). -/
def fF (b c d : Nat) : Nat := (b &&& c) ||| (not32 b &&& d)

/-- Round function G (rounds 16–31). -/
def fG (b c d : Nat) : Nat := (d &&& b) ||| (not32 d &&& c)

/-- Round function H (rounds 32–47). -/
def fH (b c d : Nat) : Nat := b ^^^ c ^^^ d

/-- Round function I (rounds 48–63). -/
def fI (b c d : Nat) : Nat := c ^^^ (b ||| not32 d)

/-- Per-round left-rotation amounts. -/
def shifts : List Nat :=
  [7, 12, 17, 22, 7, 12, 17, 22, 7, 12, 17, 22, 7, 12, 17, 22,
   5, 9, 14, 20, 5, 9, 14, 20, 5, 9, 14, 20, 5, 9, 14, 20,
   4, 11, 16, 23, 4, 11, 16, 23, 4, 11, 16, 23, 4, 11, 16, 23,
   6, 10, 15, 21, 6, 10, 15, 21, 6, 10, 15, 21, 6, 10, 15, 21]

/-- Round constants `K[i] = floor(|sin(i+1)| * 2^32)`. -/
def K : List Nat :=
  [0xd76aa478, 0xe8c7b756, 0x242070db, 0xc1bdceee,
   0xf57c0faf, 0x4787c62a, 0xa8304613, 0xfd469501,
   0x698098d8, 0x8b44f7af, 0xffff5bb1, 0x895cd7be,
   0x6b901122, 0xfd987193, 0xa679438e, 0x49b40821,
   0xf61e2562, 0xc040b340, 0x265e5a51, 0xe9b6c7aa,
   0xd62f105d, 0x02441453, 0xd8a1e681, 0xe7d3fbc8,
   0x21e1cde6, 0xc33707d6, 0xf4d50d87, 0x455a14ed,
   0xa9e3e905, 0xfcefa3f8, 0x676f02d9, 0x8d2a4c8a,
   0xfffa3942, 0x8771f681, 0x6d9d6122, 0xfde5380c,
   0xa4beea44, 0x4bdecfa9, 0xf6bb4b60, 0xbebfbc70,
   0x289b7ec6, 0xeaa127fa, 0xd4ef3085, 0x04881d05,
   0xd9d4d039, 0xe6db99e5, 0x1fa27cf8, 0xc4ac5665,
   0xf4292244, 0x432aff97, 0xab9423a7, 0xfc93a039,
   0x655b59c3, 0x8f0ccc92, 0xffeff47d, 0x85845dd1,
   0x6fa87e4f, 0xfe2ce6e0, 0xa3014314, 0x4e0811a1,
   0xf7537e82, 0xbd3af235, 0x2ad7d2bb, 0xeb86d391]

/-- Internal digest state: the four 32-bit registers. -/
structure St where
  a : Nat
  b : Nat
  c : Nat
  d : Nat
deriving DecidableEq

/-- Decode a 64-byte chunk into its 16 little-endian 32-bit words. -/
def toWords : List Nat → List Nat
  | b0 :: b1 :: b2 :: b3 :: rest =>
      (b0 + 256 * (b1 + 256 * (b2 + 256 * b3))) :: toWords rest
  | _ => []

/-- One of the 64 rounds over the message words `M` of the current chunk. -/
def step (M : List Nat) (st : St) (i : Nat) : St :=
  let fg : Nat × Nat :=
    if i < 16 then (fF st.b st.c st.d, i)
    else if i < 32 then (fG st.b st.c st.d, (5 * i + 1) % 16)
    else if i < 48 then (fH st.b st.c st.d, (3 * i + 5) % 16)
    else (fI st.b st.c st.d, (7 * i) % 16)
  let f := add32 (add32 (add32 fg.1 st.a) (K.getD i 0)) (M.getD fg.2 0)
  { a := st.d, b := add32 st.b (rotl32 f (shifts.getD i 0)), c := st.b, d := st.c }

/-- Compress one 64-byte chunk into the running state. -/
def processChunk (st : St) (chunk : List Nat) : St :=
  let M := toWords chunk
  let r := (List.range 64).foldl (step M) st
  { a := add32 st.a r.a, b := add32 st.b r.b, c := add32 st.c r.c, d := add32 st.d r.d }

/-- Split a byte list into 64-byte chunks; the fuel (first argument) is an
upper bound on the number of chunks, so `chunks` never hits the fuel-out
case when called with `l.length` as fuel. -/
def chunksAux : Nat → List Nat → List (List Nat)
  | _, [] => []
  | 0, l => [l]
  | n + 1, b :: bs => (b :: bs).take 64 :: chunksAux n ((b :: bs).drop 64)

/-- Split a byte list into 64-byte chunks. -/
def chunks (l : List Nat) : List (List Nat) := chunksAux l.length l

/-- MD5 padding: `0x80`, zeros to 56 mod 64, then the bit length as
64-bit little-endian. -/
def pad (bytes : List Nat) : List Nat :=
  let len := bytes.length
  let zeros := (119 - len % 64) % 64
  let bitLen := (len * 8) % (2 ^ 64)
  bytes ++ [128] ++ List.replicate zeros 0 ++
    (List.range 8).map (fun i => bitLen / 256 ^ i % 256)

/-- Digest a byte list: pad, then compress every chunk. -/
def md5Bytes (bytes : List Nat) : St :=
  (chunks (pad bytes)).foldl processChunk
    ⟨0x67452301, 0xefcdab89, 0x98badcfe, 0x10325476⟩

/-- Lower-case hex digit for `n < 16`. -/
def hexDigit (n : Nat) : Char :=
  if n < 10 then Char.ofNat (48 + n) else Char.ofNat (87 + n)

/-- Two lower-case hex digits of one byte. -/
def byteHex (b : Nat) : List Char := [hexDigit (b / 16), hexDigit (b % 16)]

/-- Eight hex digits of a 32-bit word, bytes in little-endian order. -/
def wordHexLE (w : Nat) : List Char :=
  ((List.range 4).map (fun i => byteHex (w / 256 ^ i % 256))).flatten

/-- UTF-8 encoding of one code point. -/
def utf8Bytes (c : Nat) : List Nat :=
  if c < 0x80 then [c]
  else if c < 0x800 then
    [0xc0 ||| (c >>> 6), 0x80 ||| (c &&& 0x3f)]
  else if c < 0x10000 then
    [0xe0 ||| (c >>> 12), 0x80 ||| ((c >>> 6) &&& 0x3f), 0x80 ||| (c &&& 0x3f)]
  else
    [0xf0 ||| (c >>> 18), 0x80 ||| ((c >>> 12) &&& 0x3f),
     0x80 ||| ((c >>> 6) &&& 0x3f), 0x80 ||| (c &&& 0x3f)]

/-- The bytes of a string (UTF-8). -/
def strBytes (s : String) : List Nat :=
  (s.data.map (fun ch => utf8Bytes ch.toNat)).flatten

/-- `hashlib.md5(s).hexdigest()`: the 32-character lower-case hex MD5
digest of a string. -/
def md5Hex (s : String) : String :=
  let st := md5Bytes (strBytes s)
  ⟨wordHexLE st.a ++ wordHexLE st.b ++ wordHexLE st.c ++ wordHexLE st.d⟩

end MD5

/-! ## Python dictionaries

Insertion-ordered association lists with Python `dict` assignment,
`update` and lookup semantics. -/

/-- A Python `dict` as an insertion-ordered association list. -/
abbrev Dict (V : Type) := List (String × V)

/-- `d[k] = v`: overwrite the binding in place when the key exists,
append a new binding otherwise. -/
def dictSet {V : Type} : Dict V → String → V → Dict V
  | [], k, v => [(k, v)]
  | p :: rest, k, v => if p.1 = k then (k, v) :: rest else p :: dictSet rest k v

/-- `d.update(other)`: assign every pair of `other`, in iteration order,
into `d`. -/
def dictUpdate {V : Type} (d other : Dict V) : Dict V :=
  other.foldl (fun acc p => dictSet acc p.1 p.2) d

/-- `d[k]` as an option: the first binding of `k`, if any. -/
def dictGet {V : Type} : Dict V → String → Option V
  | [], _ => none
  | p :: rest, k => if p.1 = k then some p.2 else dictGet rest k

/-- The keys of a dict are pairwise distinct — an invariant of every real
Python dictionary. -/
def NodupKeys {V : Type} (d : Dict V) : Prop := (d.map (·.1)).Nodup

instance {V : Type} (d : Dict V) : Decidable (NodupKeys d) :=
  List.nodupDecidable (d.map (fun p : String × V => p.1))

/-- Last-layer-wins lookup across a sequence of layers: the value of `k`
in the latest layer that binds it — a layer later in the sequence wins
over every earlier one. -/
def lookupLayers {V : Type} : List (Dict V) → String → Option V
  | [], _ => none
  | d :: rest, k =>
      match lookupLayers rest k with
      | some v => some v
      | none => dictGet d k

/-! ## Register.cached_inclusion_tag -/

/-- The string hashed by the wrapper of `cached_inclusion_tag`:
`'_'.join(['_'.join([str(a) for a in args]),
'_'.join(['%s_%s' % (k,v) for k,v in kw.items()])])`.
Positional arguments and keyword values enter as their Python string
forms; keyword pairs keep the mapping's native iteration order. -/
def argSignature (args : List String) (kw : List (String × String)) : String :=
  String.intercalate "_"
    [String.intercalate "_" args,
     String.intercalate "_" (kw.map (fun p => p.1 ++ "_" ++ p.2))]

/-- The cache key computed by the wrapper:
`key + "_" + md5(signature).hexdigest()` when `kwargs and (args or kw)`,
and `key` unchanged otherwise. -/
def cacheKey (key : String) (kwargs : Bool) (args : List String)
    (kw : List (String × String)) : String :=
  if kwargs && (!args.isEmpty || !kw.isEmpty) then
    key ++ "_" ++ MD5.md5Hex (argSignature args kw)
  else key

/-- Modelled from the spec: claim C1's reading of the cache key — `key`
unchanged when the kwargs flag is false or the call received no argument,
otherwise `key + "_" +` the hexadecimal MD5 digest of the string formed by
joining the string forms of the positional arguments with underscores,
joining the keyword pairs formatted as `name_value` with underscores, and
concatenating those two joined strings with one separating underscore. -/
def cacheKeyClaimed (key : String) (useKwargs : Bool) (args : List String)
    (kw : List (String × String)) : String :=
  if useKwargs = true ∧ 1 ≤ args.length + kw.length then
    key ++ "_" ++ MD5.md5Hex
      (String.intercalate "_" args ++ "_" ++
        String.intercalate "_" (kw.map (fun p => p.1 ++ "_" ++ p.2)))
  else key

/-- `jinja2.Markup`: a string marked as safe markup. -/
structure Markup where
  s : String
deriving DecidableEq

/-- The external Django cache collaborator: `cache.get` returns `None` on
a miss. -/
def Cache := String → Option String

/-- `cache.set(k, v)`. -/
def cacheSet (c : Cache) (k v : String) : Cache :=
  fun q => if q = k then some v else c q

/-- One call of the wrapper produced by
`cached_inclusion_tag(template, key, kwargs)` around `f`, where
`render name ctx` stands for the external
`env.get_template(name).render(ctx)`. Returns the markup result, the
cache after the call, and whether the miss path ran (`f` executed and the
template rendered). -/
def cachedWrapper {Ctx : Type} (template key : String) (kwargs : Bool)
    (f : List String → List (String × String) → Ctx)
    (render : String → Ctx → String)
    (c : Cache) (args : List String) (kw : List (String × String)) :
    Markup × Cache × Bool :=
  let key_ := cacheKey key kwargs args kw
  match c key_ with
  | some t => (⟨t⟩, c, false)
  | none =>
      let context := f args kw
      let t := render template context
      (⟨t⟩, cacheSet c key_ t, true)

/-! ## render_to_string.get_context (value-level view) -/

/-- The request state seen by `get_context`: `_jingo_context` is absent
before the first resolution for the request and holds the merged
context-processor output afterwards. -/
structure Request (V : Type) where
  jingoContext : Option (Dict V)

/-- `render_to_string.get_context`. The registered context processors are
given through their outputs `processor(request)`, in registration order.
Returns the resolved context mapping, the request afterwards, and the
indices of the processors invoked during this call. -/
def getContext {V : Type} (procs : List (Dict V)) (req : Request V)
    (context : Option (Dict V)) : Dict V × Request V × List Nat :=
  match req.jingoContext with
  | some j => (dictUpdate (context.getD []) j, req, [])
  | none =>
      let j := procs.foldl dictUpdate []
      (dictUpdate (context.getD []) j, ⟨some j⟩, List.range procs.length)

/-! ## Template.render context flattening -/

/-- The context argument of `Template.render`: either a layered Django
`Context` (its `dicts` attribute) or a plain mapping. -/
inductive RenderCtx (V : Type) where
  | layered (dicts : List (Dict V)) : RenderCtx V
  | plain (d : Dict V) : RenderCtx V

/-- `Template.render`'s flattening: start from `{}`, `update` with each
layer of a Django `Context` in sequence order, or `update` once with a
plain mapping. -/
def flattenContext {V : Type} : RenderCtx V → Dict V
  | .layered ds => ds.foldl dictUpdate []
  | .plain d => dictUpdate [] d

/-! ## render_to_string with object identity

The same `get_context` code, with Python object identity and in-place
mutation made explicit: dictionaries live in a store and are passed by
reference, `context.copy()` allocates, and `update` writes through the
reference. -/

/-- A store of Python dictionary objects; a reference is an index. -/
structure Store (V : Type) where
  dicts : List (Dict V)

/-- Allocate a fresh dictionary object. -/
def alloc {V : Type} (σ : Store V) (d : Dict V) : Nat × Store V :=
  (σ.dicts.length, ⟨σ.dicts ++ [d]⟩)

/-- Dereference. -/
def readRef {V : Type} (σ : Store V) (r : Nat) : Dict V := σ.dicts.getD r []

/-- Mutate the dictionary object behind a reference. -/
def writeRef {V : Type} (σ : Store V) (r : Nat) (d : Dict V) : Store V :=
  ⟨σ.dicts.set r d⟩

/-- The request in the store view: `_jingo_context` holds a reference. -/
structure RequestS where
  jingoContext : Option Nat

/-- The memo block of `get_context`: reuse `request._jingo_context` when
present; otherwise allocate it as `{}` and `update` it in place with each
processor output. Returns the memo reference, the store afterwards, and
the request afterwards. -/
def memoStep {V : Type} (procs : List (Dict V)) (σ : Store V)
    (req : RequestS) : Nat × Store V × RequestS :=
  match req.jingoContext with
  | some j => (j, σ, req)
  | none =>
      let a := alloc σ []
      (a.1,
       procs.foldl (fun s p => writeRef s a.1 (dictUpdate (readRef s a.1) p)) a.2,
       ⟨some a.1⟩)

/-- The `ctx` creation of `get_context`: allocate `{}` when no explicit
context was passed, a copy of the caller's dictionary otherwise. -/
def ctxStep {V : Type} (σ : Store V) (context : Option Nat) : Nat × Store V :=
  match context with
  | none => alloc σ []
  | some er => alloc σ (readRef σ er)

/-- `render_to_string.get_context` over the store: the memo block, then
`ctx` creation, then `ctx.update(request._jingo_context)` written through
the reference. Returns the reference to `ctx`, the store, and the
request afterwards. -/
def getContextStore {V : Type} (procs : List (Dict V)) (σ : Store V)
    (req : RequestS) (context : Option Nat) : Nat × Store V × RequestS :=
  let m := memoStep procs σ req
  let c := ctxStep m.2.1 context
  (c.1, writeRef c.2 c.1 (dictUpdate (readRef c.2 c.1) (readRef c.2 m.1)), m.2.2)

/-- `render_to_string` over the store: resolve the context, then render
the template — externally, through `tRender` — against the flat copy that
`Template.render` makes of the resolved mapping. -/
def renderToString {V : Type} (tRender : Dict V → String) (procs : List (Dict V))
    (σ : Store V) (req : RequestS) (context : Option Nat) :
    String × Store V × RequestS :=
  let r := getContextStore procs σ req context
  (tRender (flattenContext (.plain (readRef r.2.1 r.1))), r.2.1, r.2.2)

/-! ## load_helpers -/

/-- An installed application, as `load_helpers` can observe it:
`hasPath` is whether `import_module(app)` has a `__path__` attribute
(`AttributeError` otherwise), `hasHelpers` whether
`imp.find_module('helpers', app_path)` succeeds (`ImportError`
otherwise), and `helpersImport` the outcome of
`import_module(app + '.helpers')`. -/
structure App (E : Type) where
  name : String
  hasPath : Bool
  hasHelpers : Bool
  helpersImport : Except E Unit

/-- Observable actions of `load_helpers`: setting the process-wide
`_helpers_loaded` flag, and attempting the import of a module. -/
inductive Event where
  | setFlag : Event
  | importMod (m : String) : Event
deriving DecidableEq

/-- The per-app loop of `load_helpers`: skip an app without `__path__` or
without a helpers module, import `app.helpers` otherwise. Returns the
trace of import events and the first uncaught exception, which aborts the
remaining apps. -/
def importAppHelpers {E : Type} : List (App E) → List Event × Option E
  | [] => ([], none)
  | a :: rest =>
      if a.hasPath then
        if a.hasHelpers then
          match a.helpersImport with
          | .ok _ =>
              let r := importAppHelpers rest
              (Event.importMod (a.name ++ ".helpers") :: r.1, r.2)
          | .error e => ([Event.importMod (a.name ++ ".helpers")], some e)
        else importAppHelpers rest
      else importAppHelpers rest

/-- `load_helpers`: return at once when `_helpers_loaded` is set;
otherwise set the flag first, import `jingo.helpers`, then scan the
installed apps. Returns the flag afterwards, the trace of this call, and
the propagated exception, if any. -/
def loadHelpers {E : Type} (apps : List (App E)) (loaded : Bool) :
    Bool × List Event × Option E :=
  if loaded then (loaded, [], none)
  else
    let r := importAppHelpers apps
    (true, Event.setFlag :: Event.importMod "jingo.helpers" :: r.1, r.2)

/-- `n` successive invocations of `load_helpers` from a given flag state:
the flag afterwards and the trace of each call. -/
def loadHelpersN {E : Type} (apps : List (App E)) (loaded : Bool) :
    Nat → Bool × List (List Event)
  | 0 => (loaded, [])
  | n + 1 =>
      let c := loadHelpers apps loaded
      let r := loadHelpersN apps c.1 n
      (r.1, c.2.1 :: r.2)

/-- An app on which the helpers import raises nothing: it is skipped, or
its helpers module imports cleanly. -/
def appClean {E : Type} (a : App E) : Prop :=
  a.hasPath = false ∨ a.hasHelpers = false ∨ a.helpersImport = .ok ()

/-! ## Theorems -/

set_option maxRecDepth 100000

/-- RFC 1321 test vector: the digest of the empty string. -/
example : MD5.md5Hex "" = "d41d8cd98f00b204e9800998ecf8427e" := by decide

/-- RFC 1321 test vector: the digest of `"abc"`. -/
example : MD5.md5Hex "abc" = "900150983cd24fb0d6963f7d28e17f72" := by decide

/-- Joining a two-element list with `"_"` concatenates the elements around
one separating underscore. -/
theorem intercalate_pair (x y : String) :
    String.intercalate "_" [x, y] = x ++ "_" ++ y := rfl

/-- C1: the cache key of a `cached_inclusion_tag` wrapper is
`key + "_" +` the hex MD5 digest of the underscore-joined positional
arguments and the underscore-joined `name_value` keyword pairs,
concatenated with one separating underscore, when the kwargs flag is true
and at least one argument was received; otherwise it is `key` exactly. -/
theorem cache_key_formula (key : String) (kwargs : Bool) (args : List String)
    (kw : List (String × String)) :
    cacheKey key kwargs args kw = cacheKeyClaimed key kwargs args kw := by
  unfold cacheKey cacheKeyClaimed argSignature
  rw [intercalate_pair]
  cases kwargs <;> cases args <;> cases kw <;> simp
  rw [if_pos (by omega)]

/-- C8: the keyword part of the cache key follows the mapping's native
iteration order, not a sorted order — the same keyword pairs supplied in a
different insertion order yield a different cache key. -/
theorem cache_key_kw_order_dependent :
    List.Perm [("a", "1"), ("b", "2")] [("b", "2"), ("a", "1")]
    ∧ cacheKey "k" true [] [("a", "1"), ("b", "2")]
        ≠ cacheKey "k" true [] [("b", "2"), ("a", "1")] :=
  ⟨by decide, by decide⟩

/-- C9: the cache-key computation is not injective on argument lists —
positional arguments `["1", "2"]` and the single argument `["1_2"]`
produce the same key, so the second call hits the cache entry written by
the first and returns its text (`"1,2"`) instead of a fresh render of its
own arguments (which would give `"1_2"`). -/
theorem cache_key_collision :
    (["1", "2"] : List String) ≠ ["1_2"]
    ∧ cacheKey "k" true ["1", "2"] [] = cacheKey "k" true ["1_2"] []
    ∧ (cachedWrapper "t" "k" true (fun a _ => a)
          (fun _ ctx => String.intercalate "," ctx)
          (cachedWrapper "t" "k" true (fun a _ => a)
            (fun _ ctx => String.intercalate "," ctx)
            (fun _ => none) ["1", "2"] []).2.1 ["1_2"] []).2.2 = false
    ∧ (cachedWrapper "t" "k" true (fun a _ => a)
          (fun _ ctx => String.intercalate "," ctx)
          (cachedWrapper "t" "k" true (fun a _ => a)
            (fun _ ctx => String.intercalate "," ctx)
            (fun _ => none) ["1", "2"] []).2.1 ["1_2"] []).1 = ⟨"1,2"⟩
    ∧ String.intercalate "," ["1_2"] = "1_2" :=
  ⟨by decide, by decide, by decide, by decide, rfl⟩


/-- Unfolding step of `update`: assigning the head pair, then updating
with the tail. -/
theorem dictUpdate_cons {V : Type} (d : Dict V) (p : String × V) (rest : Dict V) :
    dictUpdate d (p :: rest) = dictUpdate (dictSet d p.1 p.2) rest := rfl

/-- Lookup after assignment: the assigned key reads back the new value,
every other key is unaffected. -/
theorem dictGet_dictSet {V : Type} (d : Dict V) (k k' : String) (v : V) :
    dictGet (dictSet d k v) k' = if k' = k then some v else dictGet d k' := by
  induction d with
  | nil =>
      by_cases h : k' = k
      · simp [dictSet, dictGet, h]
      · simp [dictSet, dictGet, h, Ne.symm h]
  | cons p rest ih =>
      by_cases hp : p.1 = k
      · by_cases h : k' = k
        · simp [dictSet, dictGet, hp, h]
        · have hpk' : p.1 ≠ k' := fun hx => h (hx.symm.trans hp)
          simp [dictSet, dictGet, hp, h, Ne.symm h, hpk']
      · by_cases h : k' = k
        · have hpk' : p.1 ≠ k' := fun hx => hp (hx.trans h)
          subst h
          simp [dictSet, dictGet, hp, hpk', ih]
        · by_cases hq : p.1 = k'
          · simp [dictSet, dictGet, hp, h, hq]
          · simp [dictSet, dictGet, hp, h, hq, ih]

/-- A key is unbound exactly when it does not occur among the keys. -/
theorem dictGet_eq_none {V : Type} (d : Dict V) (k : String) :
    dictGet d k = none ↔ k ∉ d.map (·.1) := by
  induction d with
  | nil => simp [dictGet]
  | cons p rest ih =>
      by_cases h : p.1 = k
      · simp [dictGet, h]
      · simp [dictGet, h, Ne.symm h, ih]

/-- The keys after an assignment are the old keys, extended by the
assigned key when it was absent. -/
theorem mem_keys_dictSet {V : Type} (d : Dict V) (k k' : String) (v : V) :
    k' ∈ (dictSet d k v).map (·.1) ↔ k' ∈ d.map (·.1) ∨ k' = k := by
  induction d with
  | nil => simp [dictSet]
  | cons p rest ih =>
      by_cases h : p.1 = k
      · subst h
        simp [dictSet]
        tauto
      · simp [dictSet, h, ih]
        tauto

/-- Assignment preserves distinctness of the keys. -/
theorem nodupKeys_dictSet {V : Type} (d : Dict V) (k : String) (v : V)
    (h : NodupKeys d) : NodupKeys (dictSet d k v) := by
  induction d with
  | nil => simp [dictSet, NodupKeys]
  | cons p rest ih =>
      simp only [NodupKeys, List.map_cons, List.nodup_cons] at h
      by_cases hp : p.1 = k
      · simp only [dictSet, if_pos hp, NodupKeys, List.map_cons, List.nodup_cons]
        exact ⟨hp ▸ h.1, h.2⟩
      · simp only [dictSet, if_neg hp, NodupKeys, List.map_cons, List.nodup_cons]
        refine ⟨fun hm => ?_, ih h.2⟩
        rcases (mem_keys_dictSet rest k p.1 v).1 hm with hm | hm
        · exact h.1 hm
        · exact hp hm

/-- `update` preserves distinctness of the keys of the updated dict. -/
theorem nodupKeys_dictUpdate {V : Type} (e d : Dict V) (h : NodupKeys d) :
    NodupKeys (dictUpdate d e) := by
  induction e generalizing d with
  | nil => exact h
  | cons p rest ih =>
      rw [dictUpdate_cons]
      exact ih _ (nodupKeys_dictSet d p.1 p.2 h)

/-- Lookup after `update`: a key bound by the update source wins, any
other key falls through to the updated dict. The source is a real
dictionary, so its keys are distinct. -/
theorem dictGet_dictUpdate {V : Type} (e d : Dict V) (k : String)
    (he : NodupKeys e) :
    dictGet (dictUpdate d e) k = (dictGet e k).orElse (fun _ => dictGet d k) := by
  induction e generalizing d with
  | nil => rfl
  | cons p rest ih =>
      simp only [NodupKeys, List.map_cons, List.nodup_cons] at he
      rw [dictUpdate_cons, ih _ he.2]
      by_cases h : p.1 = k
      · subst h
        have hnone : dictGet rest p.1 = none :=
          (dictGet_eq_none rest p.1).2 he.1
        simp [dictGet, hnone, dictGet_dictSet, Option.orElse]
      · have h' : ¬k = p.1 := fun hx => h hx.symm
        simp [dictGet, h, h', dictGet_dictSet, Option.orElse]

/-- Lookup through a left fold of `update`s: the latest layer binding the
key wins, then the accumulator. Every layer is a real dictionary. -/
theorem dictGet_foldl_dictUpdate {V : Type} (ds : List (Dict V)) (acc : Dict V)
    (k : String) (h : ∀ d ∈ ds, NodupKeys d) :
    dictGet (ds.foldl dictUpdate acc) k =
      (lookupLayers ds k).orElse (fun _ => dictGet acc k) := by
  induction ds generalizing acc with
  | nil => rfl
  | cons d rest ih =>
      rw [List.foldl_cons, ih _ (fun x hx => h x (List.mem_cons_of_mem _ hx))]
      simp only [dictGet_dictUpdate d _ k (h d (List.mem_cons_self _ _))]
      cases hr : lookupLayers rest k <;> simp [lookupLayers, hr, Option.orElse]

/-- Appending a fresh key leaves earlier bindings in place. -/
theorem dictSet_append {V : Type} (d : Dict V) (k : String) (v : V)
    (h : k ∉ d.map (·.1)) : dictSet d k v = d ++ [(k, v)] := by
  induction d with
  | nil => rfl
  | cons p rest ih =>
      simp only [List.map_cons, List.mem_cons] at h
      push_neg at h
      have hp : ¬p.1 = k := fun hx => h.1 hx.symm
      simp [dictSet, hp, ih h.2]

/-- Updating an accumulator whose keys avoid the source appends the
source; updating `{}` with a real dictionary copies it. -/
theorem dictUpdate_of_disjoint {V : Type} (d : Dict V) :
    ∀ acc : Dict V, NodupKeys d → (∀ x ∈ d.map (·.1), x ∉ acc.map (·.1)) →
      dictUpdate acc d = acc ++ d := by
  induction d with
  | nil =>
      intro acc _ _
      simp [dictUpdate]
  | cons p rest ih =>
      intro acc hd hdisj
      simp only [NodupKeys, List.map_cons, List.nodup_cons] at hd
      have hdisj' : ∀ x ∈ rest.map (·.1), x ∉ (acc ++ [(p.1, p.2)]).map (·.1) := by
        intro x hx
        rw [List.map_append, List.mem_append]
        rintro (hm | hm)
        · exact hdisj x (by simp only [List.map_cons, List.mem_cons]; exact Or.inr hx) hm
        · simp only [List.map_cons, List.map_nil, List.mem_cons,
            List.not_mem_nil, or_false] at hm
          exact hd.1 (hm ▸ hx)
      rw [dictUpdate_cons, dictSet_append acc p.1 p.2 (hdisj p.1 (by simp)),
        ih (acc ++ [(p.1, p.2)]) hd.2 hdisj']
      simp

/-- C7: `Template.render` flattens a layered Django `Context` by updating
an accumulator with each layer in sequence order, so a later layer wins
on any duplicate key; a plain mapping is copied directly; the layers
`[{"a":1}, {"a":2,"b":3}]` flatten to `{"a":2,"b":3}`. -/
theorem template_render_flatten {V : Type} (ds : List (Dict V)) (k : String)
    (d : Dict V) (hds : ∀ x ∈ ds, NodupKeys x) (hd : NodupKeys d) :
    dictGet (flattenContext (.layered ds)) k = lookupLayers ds k
    ∧ flattenContext (.plain d) = d
    ∧ flattenContext (RenderCtx.layered [[("a", 1)], [("a", 2), ("b", 3)]])
        = [("a", 2), ("b", 3)] := by
  refine ⟨?_, ?_, by decide⟩
  · rw [flattenContext, dictGet_foldl_dictUpdate ds [] k hds]
    cases hr : lookupLayers ds k <;> simp [dictGet, Option.orElse]
  · rw [flattenContext, dictUpdate_of_disjoint d [] hd (by simp)]
    simp

/-- C7 witness: the flatten characterization at the layers
`[{"a":1}, {"a":2,"b":3}]` and the plain mapping `{"c":5}`. -/
theorem template_render_flatten_witness :
    dictGet (flattenContext (RenderCtx.layered [[("a", 1)], [("a", 2), ("b", 3)]])) "a"
      = some 2
    ∧ flattenContext (RenderCtx.plain [("c", 5)]) = [("c", 5)] := by
  have h := template_render_flatten [[("a", 1)], [("a", 2), ("b", 3)]] "a"
    [("c", 5)] (by decide) (by decide)
  exact ⟨by rw [h.1]; decide, h.2.1⟩

/-- A fold of `update`s starting from a dict with distinct keys keeps the
keys distinct. -/
theorem nodupKeys_foldl_dictUpdate {V : Type} (ds : List (Dict V)) (acc : Dict V)
    (h : NodupKeys acc) : NodupKeys (ds.foldl dictUpdate acc) := by
  induction ds generalizing acc with
  | nil => exact h
  | cons d rest ih => exact ih _ (nodupKeys_dictUpdate d acc h)

/-- C2: the mapping `get_context` returns is the explicit context (empty
when absent) overwritten by the merged processor output stored on the
request — on any key the processor-produced value wins, and only keys the
processors do not bind fall through to the caller-supplied value. -/
theorem get_context_processor_precedence {V : Type} (procs : List (Dict V))
    (req : Request V) (context : Option (Dict V)) (k : String)
    (hj : ∀ j, req.jingoContext = some j → NodupKeys j) :
    dictGet (getContext procs req context).1 k =
      (dictGet ((getContext procs req context).2.1.jingoContext.getD []) k).orElse
        (fun _ => dictGet (context.getD []) k) := by
  cases hreq : req.jingoContext with
  | some j =>
      simp [getContext, hreq, dictGet_dictUpdate j _ k (hj j hreq)]
  | none =>
      have hnd : NodupKeys (procs.foldl dictUpdate []) :=
        nodupKeys_foldl_dictUpdate procs [] (by simp [NodupKeys])
      simp [getContext, hreq, dictGet_dictUpdate _ _ k hnd]

/-- C2 witness: explicit context `{"x":1}` with a processor returning
`{"x":2,"y":3}` resolves to `x = 2`, `y = 3` — the processor wins on the
conflicting key. -/
theorem get_context_processor_precedence_witness :
    dictGet (getContext [[("x", 2), ("y", 3)]] (⟨none⟩ : Request Nat)
      (some [("x", 1)])).1 "x" = some 2
    ∧ dictGet (getContext [[("x", 2), ("y", 3)]] (⟨none⟩ : Request Nat)
      (some [("x", 1)])).1 "y" = some 3 :=
  ⟨by rw [get_context_processor_precedence _ _ _ _ (fun j h => by cases h)]; decide,
   by rw [get_context_processor_precedence _ _ _ _ (fun j h => by cases h)]; decide⟩

/-- C4: the first resolution for a request invokes every registered
processor exactly once, in order, and stores their merged output — later
processor wins on duplicate keys — on the request; a second resolution
within the same request invokes no processor and reuses the stored
request state. -/
theorem get_context_memoizes {V : Type} (procs : List (Dict V))
    (e₁ e₂ : Option (Dict V)) (hp : ∀ d ∈ procs, NodupKeys d) :
    (getContext procs ⟨none⟩ e₁).2.2 = List.range procs.length
    ∧ (getContext procs ⟨none⟩ e₁).2.1.jingoContext
        = some (procs.foldl dictUpdate [])
    ∧ (∀ k, dictGet (procs.foldl dictUpdate []) k = lookupLayers procs k)
    ∧ (getContext procs (getContext procs ⟨none⟩ e₁).2.1 e₂).2.2 = []
    ∧ (getContext procs (getContext procs ⟨none⟩ e₁).2.1 e₂).2.1
        = (getContext procs ⟨none⟩ e₁).2.1 := by
  refine ⟨rfl, rfl, fun k => ?_, rfl, rfl⟩
  rw [dictGet_foldl_dictUpdate procs [] k hp]
  cases hr : lookupLayers procs k <;> simp [dictGet, Option.orElse]

/-- C4 witness: with processors returning `{"x":1}` then `{"x":2}`, the
first resolution invokes processors `[0, 1]`, stores `{"x":2}` (the later
processor won), and the second resolution invokes none. -/
theorem get_context_memoizes_witness :
    (getContext [[("x", 1)], [("x", 2)]] (⟨none⟩ : Request Nat)
      (some [("z", 9)])).2.2 = [0, 1]
    ∧ (getContext [[("x", 1)], [("x", 2)]] (⟨none⟩ : Request Nat)
      (some [("z", 9)])).2.1.jingoContext = some [("x", 2)]
    ∧ (getContext [[("x", 1)], [("x", 2)]]
        ((getContext [[("x", 1)], [("x", 2)]] (⟨none⟩ : Request Nat)
          (some [("z", 9)])).2.1) none).2.2 = [] := by
  have h := get_context_memoizes [[("x", 1)], [("x", 2)]]
    (some [("z", 9)]) (none : Option (Dict Nat)) (by decide)
  exact ⟨by rw [h.1]; decide, by rw [h.2.1]; decide, h.2.2.2.1⟩

/-- C5: a wrapper call whose computed key is in the cache returns the
cached text as safe markup without running `f`, rendering, or touching
the cache; a miss runs `f`, renders the template against its context,
stores the text under the key, and returns it as safe markup; hence a
second identical call hits the cache, renders nothing, and returns the
first call's result. -/
theorem cached_wrapper_behavior {Ctx : Type} (template key : String)
    (kwargs : Bool) (f : List String → List (String × String) → Ctx)
    (render : String → Ctx → String) (c : Cache)
    (args : List String) (kw : List (String × String)) :
    (∀ t, c (cacheKey key kwargs args kw) = some t →
        cachedWrapper template key kwargs f render c args kw = (⟨t⟩, c, false))
    ∧ (c (cacheKey key kwargs args kw) = none →
        cachedWrapper template key kwargs f render c args kw =
          (⟨render template (f args kw)⟩,
           cacheSet c (cacheKey key kwargs args kw) (render template (f args kw)),
           true))
    ∧ (cachedWrapper template key kwargs f render
        (cachedWrapper template key kwargs f render c args kw).2.1 args kw).2.2
        = false
    ∧ (cachedWrapper template key kwargs f render
        (cachedWrapper template key kwargs f render c args kw).2.1 args kw).1
        = (cachedWrapper template key kwargs f render c args kw).1 := by
  cases hc : c (cacheKey key kwargs args kw) with
  | some t =>
      refine ⟨?_, ?_, ?_, ?_⟩
      · intro t' ht'
        injection ht' with h
        subst h
        simp [cachedWrapper, hc]
      · intro hn
        exact Option.noConfusion hn
      · simp [cachedWrapper, hc]
      · simp [cachedWrapper, hc]
  | none =>
      refine ⟨?_, ?_, ?_, ?_⟩
      · intro t' ht'
        exact Option.noConfusion ht'
      · intro _
        simp [cachedWrapper, hc]
      · simp [cachedWrapper, hc, cacheSet]
      · simp [cachedWrapper, hc, cacheSet]

/-- C5 witness: on an empty cache the wrapper renders and stores; the
immediate second identical call is a hit that renders nothing and
returns the same markup. -/
theorem cached_wrapper_behavior_witness :
    cachedWrapper "t" "k" true (fun _ _ => ([] : Dict Nat)) (fun _ _ => "R")
      (fun _ => none) ["x"] [] =
      (⟨"R"⟩, cacheSet (fun _ => none) (cacheKey "k" true ["x"] []) "R", true)
    ∧ (cachedWrapper "t" "k" true (fun _ _ => ([] : Dict Nat)) (fun _ _ => "R")
        (cachedWrapper "t" "k" true (fun _ _ => ([] : Dict Nat)) (fun _ _ => "R")
          (fun _ => none) ["x"] []).2.1 ["x"] []).2.2 = false :=
  ⟨(cached_wrapper_behavior "t" "k" true (fun _ _ => ([] : Dict Nat))
      (fun _ _ => "R") (fun _ => none) ["x"] []).2.1 rfl,
   (cached_wrapper_behavior "t" "k" true (fun _ _ => ([] : Dict Nat))
      (fun _ _ => "R") (fun _ => none) ["x"] []).2.2.1⟩

/-- Reading an existing object is unaffected by an allocation. -/
theorem readRef_alloc {V : Type} (σ : Store V) (d : Dict V) (r : Nat)
    (hr : r < σ.dicts.length) : readRef (alloc σ d).2 r = readRef σ r := by
  simp only [alloc, readRef, List.getD_eq_getElem?_getD]
  rw [List.getElem?_append, if_pos hr]

/-- Writing one object leaves every other object unchanged. -/
theorem readRef_write_ne {V : Type} (σ : Store V) (j r : Nat) (d : Dict V)
    (h : r ≠ j) : readRef (writeRef σ j d) r = readRef σ r := by
  simp only [writeRef, readRef, List.getD_eq_getElem?_getD]
  rw [List.getElem?_set_ne (Ne.symm h)]

/-- Writing preserves the number of allocated objects. -/
theorem length_write {V : Type} (σ : Store V) (j : Nat) (d : Dict V) :
    (writeRef σ j d).dicts.length = σ.dicts.length := by
  simp [writeRef]

/-- The processor loop only ever writes the memo object `j`. -/
theorem procsFold_frame {V : Type} (procs : List (Dict V)) (j r : Nat)
    (h : r ≠ j) :
    ∀ s : Store V,
      readRef (procs.foldl
        (fun s p => writeRef s j (dictUpdate (readRef s j) p)) s) r
        = readRef s r := by
  induction procs with
  | nil => intro s; rfl
  | cons p rest ih =>
      intro s
      rw [List.foldl_cons, ih _]
      exact readRef_write_ne s j r _ h

/-- The processor loop allocates nothing. -/
theorem procsFold_length {V : Type} (procs : List (Dict V)) (j : Nat) :
    ∀ s : Store V,
      (procs.foldl
        (fun s p => writeRef s j (dictUpdate (readRef s j) p)) s).dicts.length
        = s.dicts.length := by
  induction procs with
  | nil => intro s; rfl
  | cons p rest ih => intro s; rw [List.foldl_cons, ih _, length_write]

/-- The memo block never frees: the store can only grow. -/
theorem memoStep_length {V : Type} (procs : List (Dict V)) (σ : Store V)
    (req : RequestS) :
    σ.dicts.length ≤ (memoStep procs σ req).2.1.dicts.length := by
  cases hj : req.jingoContext with
  | some j => simp [memoStep, hj]
  | none =>
      simp only [memoStep, hj]
      rw [procsFold_length]
      simp [alloc]

/-- The memo block writes only the freshly allocated memo object. -/
theorem memoStep_frame {V : Type} (procs : List (Dict V)) (σ : Store V)
    (req : RequestS) (r : Nat) (hr : r < σ.dicts.length) :
    readRef (memoStep procs σ req).2.1 r = readRef σ r := by
  cases hj : req.jingoContext with
  | some j => simp [memoStep, hj]
  | none =>
      simp only [memoStep, hj]
      rw [procsFold_frame _ _ _ (by simp only [alloc]; omega),
        readRef_alloc _ _ _ hr]

/-- `ctx` is always a fresh reference: the next free index. -/
theorem ctxStep_fst {V : Type} (σ : Store V) (context : Option Nat) :
    (ctxStep σ context).1 = σ.dicts.length := by
  cases context <;> rfl

/-- Creating `ctx` does not disturb existing objects. -/
theorem ctxStep_frame {V : Type} (σ : Store V) (context : Option Nat)
    (r : Nat) (hr : r < σ.dicts.length) :
    readRef (ctxStep σ context).2 r = readRef σ r := by
  cases context <;> exact readRef_alloc _ _ _ hr

/-- `get_context` writes only to freshly allocated objects: every
dictionary that existed before the call reads back unchanged. -/
theorem getContextStore_frame {V : Type} (procs : List (Dict V)) (σ : Store V)
    (req : RequestS) (context : Option Nat) (r : Nat)
    (hr : r < σ.dicts.length) :
    readRef (getContextStore procs σ req context).2.1 r = readRef σ r := by
  have h1 : σ.dicts.length ≤ (memoStep procs σ req).2.1.dicts.length :=
    memoStep_length procs σ req
  have hne : r ≠ (ctxStep (memoStep procs σ req).2.1 context).1 := by
    rw [ctxStep_fst]
    omega
  simp only [getContextStore]
  rw [readRef_write_ne _ _ _ _ hne,
    ctxStep_frame _ _ _ (by omega),
    memoStep_frame _ _ _ _ hr]

/-- C10: `render_to_string` never mutates the caller-supplied explicit
context dictionary — `get_context` copies it and applies processor output
to the copy, so the caller's object reads back unchanged after the call. -/
theorem render_to_string_preserves_caller_context {V : Type}
    (tRender : Dict V → String) (procs : List (Dict V)) (σ : Store V)
    (req : RequestS) (er : Nat) (her : er < σ.dicts.length) :
    readRef (renderToString tRender procs σ req (some er)).2.1 er
      = readRef σ er :=
  getContextStore_frame procs σ req (some er) er her

/-- C10 witness: the caller's `{"x":1}` is untouched by a render with a
processor contributing `{"x":2}`. -/
theorem render_to_string_preserves_caller_context_witness :
    readRef (renderToString (fun _ => "out") [[("x", 2)]]
      (⟨[[("x", 1)]]⟩ : Store Nat) ⟨none⟩ (some 0)).2.1 0 = [("x", 1)] :=
  (render_to_string_preserves_caller_context (fun _ => "out") [[("x", 2)]]
    (⟨[[("x", 1)]]⟩ : Store Nat) ⟨none⟩ 0 (by decide)).trans (by decide)

/-- Once the flag is set, any number of further calls do nothing. -/
theorem loadHelpersN_loaded {E : Type} (apps : List (App E)) (m : Nat) :
    loadHelpersN apps true m = (true, List.replicate m []) := by
  induction m with
  | zero => rfl
  | succ k ih => simp [loadHelpersN, loadHelpers, ih, List.replicate]

/-- C3: across `n ≥ 1` invocations, the import sequence runs exactly
once — the first call's trace sets the flag before any import and every
later call's trace is empty — and the flag is true afterwards. -/
theorem load_helpers_runs_once {E : Type} (apps : List (App E)) (n : Nat)
    (h : 1 ≤ n) :
    (loadHelpersN apps false n).1 = true
    ∧ (loadHelpersN apps false n).2 =
        (Event.setFlag :: Event.importMod "jingo.helpers"
          :: (importAppHelpers apps).1) :: List.replicate (n - 1) [] := by
  cases n with
  | zero => omega
  | succ m =>
      constructor
      · simp [loadHelpersN, loadHelpers, loadHelpersN_loaded]
      · simp [loadHelpersN, loadHelpers, loadHelpersN_loaded]

/-- C3 witness: three invocations over two apps (one with a helpers
module, one without `__path__`) import once, with the flag-set event
first; the flag ends true. -/
theorem load_helpers_runs_once_witness :
    (loadHelpersN ([⟨"app1", true, true, Except.ok ()⟩,
        ⟨"app2", false, true, Except.ok ()⟩] : List (App String)) false 3).1
      = true
    ∧ (loadHelpersN ([⟨"app1", true, true, Except.ok ()⟩,
        ⟨"app2", false, true, Except.ok ()⟩] : List (App String)) false 3).2 =
        [[Event.setFlag, Event.importMod "jingo.helpers",
          Event.importMod "app1.helpers"], [], []] := by
  have h := load_helpers_runs_once ([⟨"app1", true, true, Except.ok ()⟩,
    ⟨"app2", false, true, Except.ok ()⟩] : List (App String)) 3 (by omega)
  refine ⟨h.1, ?_⟩
  rw [h.2]
  decide

/-- The app loop ignores an app with no package path or no helpers
module: the traversal continues as if the app were absent. -/
theorem importAppHelpers_skip {E : Type} (pre post : List (App E)) (a : App E)
    (ha : a.hasPath = false ∨ a.hasHelpers = false) :
    importAppHelpers (pre ++ a :: post) = importAppHelpers (pre ++ post) := by
  induction pre with
  | nil =>
      rcases ha with ha | ha
      · simp [importAppHelpers, ha]
      · cases hp : a.hasPath <;> simp [importAppHelpers, ha, hp]
  | cons x rest ih =>
      cases hp : x.hasPath
      · simp [importAppHelpers, hp, ih]
      · cases hh : x.hasHelpers
        · simp [importAppHelpers, hp, hh, ih]
        · cases hi : x.helpersImport
          · simp [importAppHelpers, hp, hh, hi]
          · simp [importAppHelpers, hp, hh, hi, ih]

/-- An exception from an existing helpers module reaches the end of the
loop when the apps before it raise nothing. -/
theorem importAppHelpers_error {E : Type} (post : List (App E)) (b : App E)
    (e : E) (hb : b.hasPath = true) (hbh : b.hasHelpers = true)
    (hbe : b.helpersImport = .error e) :
    ∀ pre : List (App E), (∀ x ∈ pre, appClean x) →
      (importAppHelpers (pre ++ b :: post)).2 = some e := by
  intro pre
  induction pre with
  | nil =>
      intro _
      simp [importAppHelpers, hb, hbh, hbe]
  | cons x rest ih =>
      intro hpre
      have hx := hpre x (by simp)
      have hrest : ∀ y ∈ rest, appClean y := fun y hy => hpre y (by simp [hy])
      rcases hx with hx | hx | hx
      · simp [importAppHelpers, hx, ih hrest]
      · cases hp : x.hasPath <;> simp [importAppHelpers, hp, hx, ih hrest]
      · cases hp : x.hasPath
        · simp [importAppHelpers, hp, ih hrest]
        · cases hh : x.hasHelpers
          · simp [importAppHelpers, hp, hh, ih hrest]
          · simp [importAppHelpers, hp, hh, hx, ih hrest]

/-- C6: an installed app with no `__path__` or no helpers module is
skipped silently — `load_helpers` behaves exactly as if the app were
absent and the loop continues — while an exception raised by importing a
helpers module that does exist propagates uncaught out of `load_helpers`
(earlier apps raising nothing). -/
theorem load_helpers_skip_and_propagate {E : Type} (pre post : List (App E))
    (a b : App E) (e : E) (ha : a.hasPath = false ∨ a.hasHelpers = false)
    (hpre : ∀ x ∈ pre, appClean x) (hb : b.hasPath = true)
    (hbh : b.hasHelpers = true) (hbe : b.helpersImport = .error e) :
    loadHelpers (pre ++ a :: post) false = loadHelpers (pre ++ post) false
    ∧ (loadHelpers (pre ++ b :: post) false).2.2 = some e := by
  constructor
  · simp [loadHelpers, importAppHelpers_skip pre post a ha]
  · simp [loadHelpers, importAppHelpers_error post b e hb hbh hbe pre hpre]

/-- C6 witness: an app without a helpers module is skipped (the load
equals the load without it); an app whose helpers module raises `"boom"`
propagates `"boom"` out of `load_helpers`. -/
theorem load_helpers_skip_and_propagate_witness :
    loadHelpers ([⟨"p", true, false, Except.ok ()⟩,
        ⟨"a", false, true, Except.ok ()⟩,
        ⟨"q", true, true, Except.ok ()⟩] : List (App String)) false
      = loadHelpers ([⟨"p", true, false, Except.ok ()⟩,
        ⟨"q", true, true, Except.ok ()⟩] : List (App String)) false
    ∧ (loadHelpers ([⟨"p", true, false, Except.ok ()⟩,
        ⟨"b", true, true, Except.error "boom"⟩,
        ⟨"q", true, true, Except.ok ()⟩] : List (App String)) false).2.2
      = some "boom" :=
  load_helpers_skip_and_propagate
    [⟨"p", true, false, Except.ok ()⟩] [⟨"q", true, true, Except.ok ()⟩]
    ⟨"a", false, true, Except.ok ()⟩ ⟨"b", true, true, Except.error "boom"⟩
    "boom" (Or.inl rfl)
    (by intro x hx
        simp only [List.mem_singleton] at hx
        subst hx
        exact Or.inr (Or.inl rfl))
    rfl rfl rfl
